import Mathlib

/-!
# arkade `system install firecracker`: a shallow embedding of `cmd/system/firecracker.go`

The command body (`MakeInstallFirecracker`, the `RunE` closure, lines 45-116) is a
straight-line procedure over external collaborators.  The embedding makes the
collaborators' answers an explicit `World`, and the command a pure function from a
world and the three flag values to the ordered list of external calls it performs
(`Event`) together with the returned Go `error` (`none` is `nil`).

Go strings are modelled by Lean `String`s (sequences of Unicode scalar values);
`fmt.Sprintf`/`fmt.Printf` with `%s` verbs are modelled by concatenation.

Modelling choices:
* a collaborator's answer is a function of the arguments it is called with;
* the Unicode case table behind `strings.ToLower` is a parameter of the world, used only for
  runes above the ASCII range;
* `range` over the two-entry map `filesToCopy` may visit the entries in either order, chosen
  by the world;
* `defer f.Close()` shows as a `closeFile` event at the end of every run that opened the file.
-/

namespace Firecracker

/-! ## Go values -/

/-- A Go `error` value that is not nil: its `Error()` text and what `os.IsExist` answers on it. -/
structure GoError where
  msg : String
  isExist : Bool
deriving DecidableEq, Repr

/-- The value of `fmt.Errorf(msg)`: an error carrying the formatted text; `os.IsExist` is false on it. -/
def Errorf (msg : String) : GoError := ⟨msg, false⟩

/-- One external call or output line performed by the command, in program order. -/
inductive Event where
  | printf (line : String)
  | mkdirAll (path : String) (perm : Nat)
  | getClientArch
  | findGitHubRelease (owner repo : String)
  | downloadFileP (url : String) (progress : Bool)
  | openFile (path : String)
  | closeFile (path : String)
  | mkdirTemp (dir pattern : String)
  | untar (file dst : String) (gzip : Bool)
  | copyFile (src dst : String)
deriving DecidableEq, Repr

/-- The answers of the collaborators the command calls.  A call returning `(T, error)` is a pair
whose second component is `none` for a nil error; a call returning only `error` is an
`Option GoError`. -/
structure World where
  /-- The `os.MkdirAll(path, 0755)` result. -/
  MkdirAll : String → Option GoError
  /-- The `env.GetClientArch()` result: `(arch, os)`. -/
  GetClientArch : String × String
  /-- The `unicode.ToLower` table lookup on a rune above the ASCII range. -/
  caseTable : Char → Char
  /-- The `get.FindGitHubRelease(owner, repo)` result. -/
  FindGitHubRelease : String → String → String × Option GoError
  /-- The `get.DownloadFileP(url, progress)` result. -/
  DownloadFileP : String → Bool → String × Option GoError
  /-- The `os.OpenFile(path, os.O_RDONLY, 0644)` error result (the handle is identified with the path). -/
  OpenFile : String → Option GoError
  /-- The `os.TempDir()` result. -/
  TempDir : String
  /-- The `os.MkdirTemp(dir, pattern)` result. -/
  MkdirTemp : String → String → String × Option GoError
  /-- The `archive.Untar(f, dst, gzip)` result. -/
  Untar : String → String → Bool → Option GoError
  /-- The error component of `get.CopyFile(src, dst)`. -/
  CopyFile : String → String → Option GoError
  /-- The order in which `range` visits the map: reversed insertion order when true. -/
  rangeReversed : Bool

/-! ## Constants (lines 17-28) -/

def githubLatest : String := "latest"

def firecrackerOwner : String := "firecracker-microvm"

def firecrackerRepo : String := "firecracker"

/-- The format `githubDownloadTemplate = "https://github.com/%s/%s/releases/download/%s/%s"`
applied to its four string arguments. -/
def githubDownloadTemplate (owner repo version filename : String) : String :=
  "https://github.com/" ++ owner ++ "/" ++ repo ++ "/releases/download/" ++ version ++ "/" ++ filename

/-! ## Go standard library string functions used by the command -/

/-- ASCII lowering of one rune: `'A'..'Z'` move by `'a' - 'A'`, everything else stays. -/
def asciiLower (c : Char) : Char :=
  if 65 ≤ c.toNat ∧ c.toNat ≤ 90 then Char.ofNat (c.toNat + 32) else c

/-- The `unicode.ToLower` function: ASCII runes are lowered directly, others through the case table. -/
def unicodeToLower (caseTable : Char → Char) (c : Char) : Char :=
  if c.toNat ≤ 127 then asciiLower c else caseTable c

/-- The `strings.ToLower` function: an all-ASCII string takes the ASCII path, any other string is
mapped rune by rune through `unicode.ToLower`. -/
def ToLower (caseTable : Char → Char) (s : String) : String :=
  if s.data.all (fun c => decide (c.toNat < 128)) then String.mk (s.data.map asciiLower)
  else String.mk (s.data.map (unicodeToLower caseTable))

/-- The `strings.HasPrefix` function. -/
def HasPrefix (s pre : String) : Bool := pre.data.isPrefixOf s.data

/-! ## The command, step by step -/

/-- Lines 50-54: announce the install path, create it recursively, and print a warning when the
creation failed with an error that is not an already-exists error.  Nothing is returned. -/
def mkdirStep (w : World) (installPath : String) : List Event :=
  let t := [Event.printf ("Installing Firecracker to " ++ installPath ++ "\n"),
            Event.mkdirAll installPath 0o755]
  match w.MkdirAll installPath with
  | some err =>
    if !err.isExist then
      t ++ [Event.printf ("Error creating directory " ++ installPath ++ ", error: " ++ err.msg ++ "\n")]
    else t
  | none => t

/-- Lines 58-64: the two platform checks; `some e` is `return e`, `none` is falling through. -/
def platformGuard (caseTable : Char → Char) (arch osVer : String) : Option GoError :=
  if ToLower caseTable osVer ≠ "linux" then
    some (Errorf "this app only supports Linux")
  else if arch ≠ "x86_64" ∧ arch ≠ "aarch64" then
    some (Errorf ("this app only supports x86_64 and aarch64 and not " ++ arch))
  else none

/-- Lines 66-75: the calls made, the new value of `version`, and the error returned (if any). -/
def resolveVersion (w : World) (version : String) : List Event × String × Option GoError :=
  if version = githubLatest then
    let r := w.FindGitHubRelease firecrackerOwner firecrackerRepo
    let v := r.1
    let err := r.2
    if err ≠ none then
      ([Event.findGitHubRelease firecrackerOwner firecrackerRepo], version, err)
    else
      ([Event.findGitHubRelease firecrackerOwner firecrackerRepo], v, none)
  else if !HasPrefix version "v" then
    ([], "v" ++ version, none)
  else
    ([], version, none)

/-- Line 79: `fmt.Sprintf("firecracker-%s-%s.tgz", version, arch)`. -/
def filename (version arch : String) : String :=
  "firecracker-" ++ version ++ "-" ++ arch ++ ".tgz"

/-- Line 80: `fmt.Sprintf(githubDownloadTemplate, firecrackerOwner, firecrackerRepo, version, filename)`. -/
def dlURL (version arch : String) : String :=
  githubDownloadTemplate firecrackerOwner firecrackerRepo version (filename version arch)

/-- Storing a key in a Go map: an existing entry for the key is replaced. -/
def mapStore (m : List (String × String)) (k v : String) : List (String × String) :=
  if m.any (fun e => e.1 == k) then m.map (fun e => if e.1 == k then (k, v) else e)
  else m ++ [(k, v)]

/-- Lines 105-108: the map literal `filesToCopy`, as its entries in insertion order. -/
def filesToCopy (tempUnpackPath version arch installPath : String) : List (String × String) :=
  mapStore
    (mapStore [] (tempUnpackPath ++ "/firecracker-" ++ version ++ "-" ++ arch) (installPath ++ "/firecracker"))
    (tempUnpackPath ++ "/jailer-" ++ version ++ "-" ++ arch) (installPath ++ "/jailer")

/-- The entries of a map in the order one `range` loop visits them. -/
def rangeOrder (w : World) (m : List (String × String)) : List (String × String) :=
  if w.rangeReversed then m.reverse else m

/-- Lines 109-113: the copy loop over the visited entries.  `err` is the enclosing function's
variable `err` (the loop body returns that variable, not `copyErr`).  The result is the calls
made and `some r` when the loop executed `return r`, `none` when it ran to completion. -/
def copyLoop (w : World) (err : Option GoError) :
    List (String × String) → List Event × Option (Option GoError)
  | [] => ([], none)
  | (src, dst) :: rest =>
    match w.CopyFile src dst with
    | some _copyErr => ([Event.copyFile src dst], some err)
    | none =>
      let r := copyLoop w err rest
      (Event.copyFile src dst :: r.1, r.2)

/-- Lines 77-115: everything after the version has been resolved. -/
def install (w : World) (installPath version arch : String) (progress : Bool) :
    List Event × Option GoError :=
  let t3 := [Event.printf ("Installing version: " ++ version ++ " for: " ++ arch ++ "\n"),
             Event.printf ("Downloading from: " ++ dlURL version arch ++ "\n"),
             Event.downloadFileP (dlURL version arch) progress]
  let outPath := (w.DownloadFileP (dlURL version arch) progress).1
  let err := (w.DownloadFileP (dlURL version arch) progress).2
  if err ≠ none then (t3, err) else
  let t4 := t3 ++ [Event.printf ("Downloaded to: " ++ outPath ++ "\n"), Event.openFile outPath]
  let err := w.OpenFile outPath
  if err ≠ none then (t4, err) else
  -- `defer f.Close()`: from here on every return is followed by closing the file
  let t5 := t4 ++ [Event.mkdirTemp w.TempDir "firecracker*"]
  let tempUnpackPath := (w.MkdirTemp w.TempDir "firecracker*").1
  let err := (w.MkdirTemp w.TempDir "firecracker*").2
  if err ≠ none then (t5 ++ [Event.closeFile outPath], err) else
  let t6 := t5 ++ [Event.printf ("Unpacking Firecracker to: " ++ tempUnpackPath ++ "\n"),
                   Event.untar outPath tempUnpackPath true]
  match w.Untar outPath tempUnpackPath true with
  | some untarErr => (t6 ++ [Event.closeFile outPath], some untarErr)
  | none =>
    let t7 := t6 ++ [Event.printf ("Copying Firecracker binaries to: " ++ installPath ++ "\n")]
    let loop := copyLoop w err (rangeOrder w (filesToCopy tempUnpackPath version arch installPath))
    match loop.2 with
    | some ret => (t7 ++ loop.1 ++ [Event.closeFile outPath], ret)
    | none => (t7 ++ loop.1 ++ [Event.closeFile outPath], none)

/-- Lines 45-116: the `RunE` closure of `MakeInstallFirecracker`, on the flag values
`installPath`, `version` and `progress`. -/
def RunE (w : World) (installPath version : String) (progress : Bool) :
    List Event × Option GoError :=
  let t1 := mkdirStep w installPath ++ [Event.getClientArch]
  let arch := w.GetClientArch.1
  let osVer := w.GetClientArch.2
  match platformGuard w.caseTable arch osVer with
  | some e => (t1, some e)
  | none =>
    let rv := resolveVersion w version
    match rv.2.2 with
    | some e => (t1 ++ rv.1, some e)
    | none =>
      let r := install w installPath rv.2.1 arch progress
      (t1 ++ rv.1 ++ r.1, r.2)

/-! ## Vocabulary of the specification -/

/-- The platform descriptor constraint: the OS name lowers to "linux" and the architecture is
one of the two supported values. -/
def supported (w : World) : Prop :=
  ToLower w.caseTable w.GetClientArch.2 = "linux" ∧
    (w.GetClientArch.1 = "x86_64" ∨ w.GetClientArch.1 = "aarch64")

/-- The text `sub` occurs inside the text `s`. -/
def occursIn (sub s : String) : Prop := sub.data <:+: s.data

instance (sub s : String) : Decidable (occursIn sub s) := by
  unfold occursIn; infer_instance

/-- The resolved version of a run: the value of `version` after lines 66-75. -/
def versionOf (w : World) (version : String) : String := (resolveVersion w version).2.1

/-- The error returned by lines 66-75, if any. -/
def lookupErr (w : World) (version : String) : Option GoError := (resolveVersion w version).2.2

/-- The answer of the download call a run makes. -/
def downloadOf (w : World) (version : String) (progress : Bool) : String × Option GoError :=
  w.DownloadFileP (dlURL (versionOf w version) w.GetClientArch.1) progress

/-- The answer of the open call a run makes. -/
def openErr (w : World) (version : String) (progress : Bool) : Option GoError :=
  w.OpenFile (downloadOf w version progress).1

/-- The answer of the temp-directory call a run makes. -/
def mkdirTempOf (w : World) : String × Option GoError := w.MkdirTemp w.TempDir "firecracker*"

/-- The answer of the extraction call a run makes. -/
def untarErr (w : World) (version : String) (progress : Bool) : Option GoError :=
  w.Untar (downloadOf w version progress).1 (mkdirTempOf w).1 true

/-- The position of a call in the pipeline: 0 for output lines, directory creation, platform
detection and the deferred close, then 1 lookup, 2 download, 3 open, 4 temp directory,
5 extraction, 6 copy. -/
def Event.stage : Event → Nat
  | .printf _ => 0
  | .mkdirAll _ _ => 0
  | .getClientArch => 0
  | .closeFile _ => 0
  | .findGitHubRelease _ _ => 1
  | .downloadFileP _ _ => 2
  | .openFile _ => 3
  | .mkdirTemp _ _ => 4
  | .untar _ _ _ => 5
  | .copyFile _ _ => 6

/-! ## Concrete hosts -/

/-- A Linux x86_64 host on which every collaborator succeeds. -/
def okWorld : World where
  MkdirAll := fun _ => none
  GetClientArch := ("x86_64", "Linux")
  caseTable := id
  FindGitHubRelease := fun _ _ => ("v1.4.1", none)
  DownloadFileP := fun _ _ => ("/tmp/firecracker.tgz", none)
  OpenFile := fun _ => none
  TempDir := "/tmp"
  MkdirTemp := fun _ _ => ("/tmp/firecracker123", none)
  Untar := fun _ _ _ => none
  CopyFile := fun _ _ => none
  rangeReversed := false

/-- A macOS arm64 host. -/
def darwinWorld : World := { okWorld with GetClientArch := ("arm64", "darwin") }

/-- A Linux host with an unsupported architecture. -/
def riscvWorld : World := { okWorld with GetClientArch := ("riscv64", "linux") }

/-- The all-succeeding host, except that the copy to the jailer destination fails. -/
def jailerCopyFails : World :=
  { okWorld with
    CopyFile := fun _ dst =>
      if dst = "/usr/local/bin/jailer" then some ⟨"no space left on device", false⟩ else none }

/-- The all-succeeding host, except that the release lookup fails. -/
def lookupFails : World :=
  { okWorld with FindGitHubRelease := fun _ _ => ("", some ⟨"rate limit exceeded", false⟩) }

/-- The all-succeeding host, except that the download fails. -/
def downloadFails : World :=
  { okWorld with DownloadFileP := fun _ _ => ("", some ⟨"404 Not Found", false⟩) }

/-- The all-succeeding host, except that opening the downloaded file fails. -/
def openFails : World :=
  { okWorld with OpenFile := fun _ => some ⟨"permission denied", false⟩ }

/-- The all-succeeding host, except that no temp directory can be created. -/
def mkdirTempFails : World :=
  { okWorld with MkdirTemp := fun _ _ => ("", some ⟨"read-only file system", false⟩) }

/-- The all-succeeding host, except that the extraction fails. -/
def untarFails : World :=
  { okWorld with Untar := fun _ _ _ => some ⟨"unexpected EOF", false⟩ }

/-- The all-succeeding host, except that the install directory cannot be created. -/
def mkdirDenied : World :=
  { okWorld with MkdirAll := fun _ => some ⟨"permission denied", false⟩ }

/-- The all-succeeding host, except that the directory creation reports an already-exists error. -/
def mkdirExists : World :=
  { okWorld with MkdirAll := fun _ => some ⟨"file exists", true⟩ }

instance (w : World) : Decidable (supported w) := by
  unfold supported; infer_instance

/-! ## The platform guard (lines 56-64) -/

theorem platformGuard_eq_none_iff (caseTable : Char → Char) (arch osVer : String) :
    platformGuard caseTable arch osVer = none ↔
      (ToLower caseTable osVer = "linux" ∧ (arch = "x86_64" ∨ arch = "aarch64")) := by
  unfold platformGuard
  by_cases h1 : ToLower caseTable osVer = "linux"
  · by_cases h2 : arch = "x86_64"
    · simp [h1, h2]
    · by_cases h3 : arch = "aarch64"
      · simp [h1, h3]
      · simp [h1, h2, h3]
  · simp [h1]

theorem supported_iff_guard (w : World) :
    supported w ↔ platformGuard w.caseTable w.GetClientArch.1 w.GetClientArch.2 = none := by
  rw [platformGuard_eq_none_iff]; rfl

theorem platformGuard_os (caseTable : Char → Char) (arch osVer : String)
    (h : ToLower caseTable osVer ≠ "linux") :
    platformGuard caseTable arch osVer = some (Errorf "this app only supports Linux") := by
  simp [platformGuard, h]

theorem platformGuard_arch (caseTable : Char → Char) (arch osVer : String)
    (h : ToLower caseTable osVer = "linux") (ha : ¬ (arch = "x86_64" ∨ arch = "aarch64")) :
    platformGuard caseTable arch osVer =
      some (Errorf ("this app only supports x86_64 and aarch64 and not " ++ arch)) := by
  push_neg at ha
  simp [platformGuard, h, ha.1, ha.2]

theorem RunE_guard_some (w : World) (installPath version : String) (progress : Bool) (e : GoError)
    (h : platformGuard w.caseTable w.GetClientArch.1 w.GetClientArch.2 = some e) :
    RunE w installPath version progress = (mkdirStep w installPath ++ [Event.getClientArch], some e) := by
  simp [RunE, h]

theorem RunE_guard_none (w : World) (installPath version : String) (progress : Bool)
    (h : supported w) :
    RunE w installPath version progress =
      match lookupErr w version with
      | some e =>
        (mkdirStep w installPath ++ [Event.getClientArch] ++ (resolveVersion w version).1, some e)
      | none =>
        (mkdirStep w installPath ++ [Event.getClientArch] ++ (resolveVersion w version).1 ++
          (install w installPath (versionOf w version) w.GetClientArch.1 progress).1,
         (install w installPath (versionOf w version) w.GetClientArch.1 progress).2) := by
  rw [supported_iff_guard] at h
  simp only [RunE, h, lookupErr, versionOf]

theorem mem_mkdirStep (w : World) (installPath : String) (ev : Event)
    (h : ev ∈ mkdirStep w installPath) :
    (∃ line, ev = Event.printf line) ∨ ev = Event.mkdirAll installPath 0o755 := by
  unfold mkdirStep at h
  cases hm : w.MkdirAll installPath with
  | none =>
    simp [hm] at h
    rcases h with h | h
    · exact Or.inl ⟨_, h⟩
    · exact Or.inr h
  | some err =>
    cases hx : err.isExist <;> simp [hm, hx] at h
    · rcases h with h | h | h
      · exact Or.inl ⟨_, h⟩
      · exact Or.inr h
      · exact Or.inl ⟨_, h⟩
    · rcases h with h | h
      · exact Or.inl ⟨_, h⟩
      · exact Or.inr h

/-- C2: the platform guard stops the command with its error exactly when the lowered OS name is
not "linux" or the architecture is neither "x86_64" nor "aarch64"; it lets a supported pair
through; the OS name is compared after lowering, the architecture literally. -/
theorem platform_guard_iff (w : World) (installPath version : String) (progress : Bool) :
    ((∃ e, platformGuard w.caseTable w.GetClientArch.1 w.GetClientArch.2 = some e ∧
        RunE w installPath version progress =
          (mkdirStep w installPath ++ [Event.getClientArch], some e)) ↔
      (ToLower w.caseTable w.GetClientArch.2 ≠ "linux" ∨
        (w.GetClientArch.1 ≠ "x86_64" ∧ w.GetClientArch.1 ≠ "aarch64")))
    ∧ (platformGuard w.caseTable w.GetClientArch.1 w.GetClientArch.2 = none ↔ supported w)
    ∧ ToLower w.caseTable "linux" = "linux"
    ∧ ToLower w.caseTable "Linux" = "linux"
    ∧ ToLower w.caseTable "LINUX" = "linux"
    ∧ platformGuard w.caseTable "x86_64" "Linux" = none
    ∧ platformGuard w.caseTable "aarch64" "LINUX" = none
    ∧ platformGuard w.caseTable "X86_64" "linux" ≠ none
    ∧ platformGuard w.caseTable "AARCH64" "linux" ≠ none := by
  refine ⟨?_, (supported_iff_guard w).symm, rfl, rfl, rfl, ?_, ?_, ?_, ?_⟩
  · constructor
    · rintro ⟨e, he, -⟩
      by_contra hc
      have hn : platformGuard w.caseTable w.GetClientArch.1 w.GetClientArch.2 = none := by
        rw [platformGuard_eq_none_iff]
        push_neg at hc
        refine ⟨hc.1, ?_⟩
        by_cases h : w.GetClientArch.1 = "x86_64"
        · exact Or.inl h
        · exact Or.inr (hc.2 h)
      rw [hn] at he; cases he
    · intro h
      cases hg : platformGuard w.caseTable w.GetClientArch.1 w.GetClientArch.2 with
      | none =>
        rw [platformGuard_eq_none_iff] at hg
        rcases h with h | h
        · exact absurd hg.1 h
        · rcases hg.2 with h2 | h2
          · exact absurd h2 h.1
          · exact absurd h2 h.2
      | some e => exact ⟨e, rfl, RunE_guard_some w installPath version progress e hg⟩
  · rw [platformGuard_eq_none_iff]; exact ⟨rfl, Or.inl rfl⟩
  · rw [platformGuard_eq_none_iff]; exact ⟨rfl, Or.inr rfl⟩
  · rw [Ne, platformGuard_eq_none_iff]; rintro ⟨-, h | h⟩ <;> revert h <;> decide
  · rw [Ne, platformGuard_eq_none_iff]; rintro ⟨-, h | h⟩ <;> revert h <;> decide

/-- C3, as stated, fails: on a macOS arm64 host the command returns the platform error, yet the
recursive creation of the install directory has already been requested. -/
theorem unsupported_platform_mkdir_cex :
    ¬ supported darwinWorld ∧
    (RunE darwinWorld "/usr/local/bin" "latest" true).2 =
      some (Errorf "this app only supports Linux") ∧
    Event.mkdirAll "/usr/local/bin" 0o755 ∈ (RunE darwinWorld "/usr/local/bin" "latest" true).1 := by
  decide

/-- C3, amended: on an unsupported platform the command returns the platform guard's error and
its calls are exactly those of lines 50-56: output lines, the recursive creation of the install
directory, and the platform detection; no lookup, download, open, temp directory, extraction or
copy is requested. -/
theorem unsupported_platform_effects (w : World) (installPath version : String) (progress : Bool)
    (h : ¬ supported w) :
    (RunE w installPath version progress).2 =
        platformGuard w.caseTable w.GetClientArch.1 w.GetClientArch.2
    ∧ (RunE w installPath version progress).2 ≠ none
    ∧ (RunE w installPath version progress).1 = mkdirStep w installPath ++ [Event.getClientArch]
    ∧ (∀ ev ∈ (RunE w installPath version progress).1,
        (∃ line, ev = Event.printf line) ∨ ev = Event.mkdirAll installPath 0o755 ∨
          ev = Event.getClientArch)
    ∧ (∀ ev ∈ (RunE w installPath version progress).1, ev.stage = 0) := by
  rw [supported_iff_guard] at h
  cases hg : platformGuard w.caseTable w.GetClientArch.1 w.GetClientArch.2 with
  | none => exact absurd hg h
  | some e =>
    rw [RunE_guard_some w installPath version progress e hg]
    have hmem : ∀ ev ∈ mkdirStep w installPath ++ [Event.getClientArch],
        (∃ line, ev = Event.printf line) ∨ ev = Event.mkdirAll installPath 0o755 ∨
          ev = Event.getClientArch := by
      intro ev hev
      rw [List.mem_append] at hev
      rcases hev with hev | hev
      · rcases mem_mkdirStep w installPath ev hev with h1 | h1
        · exact Or.inl h1
        · exact Or.inr (Or.inl h1)
      · simp at hev; exact Or.inr (Or.inr hev)
    refine ⟨rfl, by simp, rfl, hmem, ?_⟩
    intro ev hev
    rcases hmem ev hev with ⟨line, rfl⟩ | rfl | rfl <;> rfl

/-- C3 amended, on the macOS arm64 host: the run is the announcement, the directory creation and the platform detection. -/
theorem unsupported_platform_effects_witness :
    ¬ supported darwinWorld ∧
    (RunE darwinWorld "/opt/bin" "v1.0.0" false).1 =
      [Event.printf "Installing Firecracker to /opt/bin\n", Event.mkdirAll "/opt/bin" 0o755,
       Event.getClientArch] :=
  ⟨by decide,
   (unsupported_platform_effects darwinWorld "/opt/bin" "v1.0.0" false (by decide)).2.2.1.trans
     (by decide)⟩

/-- C10, as stated, fails: on a macOS arm64 host the OS name is not "linux" and the architecture
is not a supported one, yet the returned message contains neither "darwin" nor "arm64". -/
theorem platform_error_names_value_cex :
    darwinWorld.GetClientArch = ("arm64", "darwin") ∧
    ToLower darwinWorld.caseTable "darwin" ≠ "linux" ∧
    ∃ e, (RunE darwinWorld "/usr/local/bin" "latest" true).2 = some e ∧
      ¬ occursIn "darwin" e.msg ∧ ¬ occursIn "arm64" e.msg := by
  refine ⟨rfl, by decide, Errorf "this app only supports Linux", by decide, by decide, by decide⟩

/-- C10, amended: when the lowered OS name is not "linux" the returned error is the fixed text
"this app only supports Linux"; when the OS is Linux and the architecture is not supported, the
returned message ends with, and so contains, the detected architecture. -/
theorem platform_error_message (w : World) (installPath version : String) (progress : Bool)
    (h : ¬ supported w) :
    (ToLower w.caseTable w.GetClientArch.2 ≠ "linux" →
      (RunE w installPath version progress).2 = some (Errorf "this app only supports Linux"))
    ∧ (ToLower w.caseTable w.GetClientArch.2 = "linux" →
      ∃ e, (RunE w installPath version progress).2 = some e ∧
        e.msg = "this app only supports x86_64 and aarch64 and not " ++ w.GetClientArch.1 ∧
        occursIn w.GetClientArch.1 e.msg) := by
  constructor
  · intro hos
    rw [RunE_guard_some w installPath version progress _ (platformGuard_os _ _ _ hos)]
  · intro hos
    have ha : ¬ (w.GetClientArch.1 = "x86_64" ∨ w.GetClientArch.1 = "aarch64") :=
      fun ha => h ⟨hos, ha⟩
    refine ⟨Errorf ("this app only supports x86_64 and aarch64 and not " ++ w.GetClientArch.1),
      ?_, rfl, ?_⟩
    · rw [RunE_guard_some w installPath version progress _ (platformGuard_arch _ _ _ hos ha)]
    · show w.GetClientArch.1.data <:+: _
      simp only [Errorf, String.data_append]
      exact (List.suffix_append _ _).isInfix

/-- C10 amended, on the macOS arm64 host and on a Linux riscv64 host. -/
theorem platform_error_message_witness :
    (RunE darwinWorld "/usr/local/bin" "latest" true).2 =
      some (Errorf "this app only supports Linux")
    ∧ ∃ e, (RunE riscvWorld "/usr/local/bin" "latest" true).2 = some e ∧
        e.msg = "this app only supports x86_64 and aarch64 and not riscv64" ∧
        occursIn "riscv64" e.msg :=
  ⟨(platform_error_message darwinWorld "/usr/local/bin" "latest" true (by decide)).1 (by decide),
   (platform_error_message riscvWorld "/usr/local/bin" "latest" true (by decide)).2 (by decide)⟩

/-! ## Version resolution (lines 66-75) and artifact naming (lines 79-80) -/

theorem resolveVersion_latest (w : World) :
    resolveVersion w githubLatest =
      ([Event.findGitHubRelease firecrackerOwner firecrackerRepo],
       (if (w.FindGitHubRelease firecrackerOwner firecrackerRepo).2 ≠ none then githubLatest
        else (w.FindGitHubRelease firecrackerOwner firecrackerRepo).1),
       (w.FindGitHubRelease firecrackerOwner firecrackerRepo).2) := by
  unfold resolveVersion
  cases h : (w.FindGitHubRelease firecrackerOwner firecrackerRepo).2 <;> simp [h]

theorem resolveVersion_other (w : World) (V : String) (h : V ≠ githubLatest) :
    resolveVersion w V = ([], (if HasPrefix V "v" then V else "v" ++ V), none) := by
  unfold resolveVersion
  cases hp : HasPrefix V "v" <;> simp [h, hp]

theorem resolveVersion_trace (w : World) (V : String) :
    (resolveVersion w V).1 =
      if V = githubLatest then [Event.findGitHubRelease firecrackerOwner firecrackerRepo] else [] := by
  by_cases hV : V = githubLatest
  · subst hV; rw [resolveVersion_latest]; simp
  · rw [resolveVersion_other w V hV]; simp [hV]

theorem hasPrefix_v_append (V : String) : HasPrefix ("v" ++ V) "v" = true := by
  simp [HasPrefix, String.data_append]

theorem ne_latest_of_hasPrefix_v (V : String) (h : HasPrefix V "v" = true) : V ≠ githubLatest := by
  rintro rfl
  revert h
  decide

theorem mem_copyLoop (w : World) (err : Option GoError) (l : List (String × String)) (ev : Event)
    (h : ev ∈ (copyLoop w err l).1) : ∃ s d, ev = Event.copyFile s d ∧ (s, d) ∈ l := by
  induction l with
  | nil => simp [copyLoop] at h
  | cons x rest ih =>
    obtain ⟨src, dst⟩ := x
    unfold copyLoop at h
    cases hc : w.CopyFile src dst with
    | some e =>
      simp [hc] at h
      exact ⟨src, dst, h, by simp⟩
    | none =>
      simp [hc] at h
      rcases h with h | h
      · exact ⟨src, dst, h, by simp⟩
      · obtain ⟨s, d, h1, h2⟩ := ih h
        exact ⟨s, d, h1, by simp [h2]⟩

theorem mem_install (w : World) (installPath version arch : String) (progress : Bool) (ev : Event)
    (h : ev ∈ (install w installPath version arch progress).1) :
    (∃ line, ev = Event.printf line ∧ line.data.head? ≠ some 'E')
    ∨ ev = Event.downloadFileP (dlURL version arch) progress
    ∨ (2 < ev.stage ∨ ∃ x, ev = Event.closeFile x) := by
  unfold install at h
  simp only [] at h
  split at h
  · simp at h
    rcases h with h | h | h <;> simp [h, String.data_append]
  split at h
  · simp at h
    rcases h with h | h | h | h | h <;> simp [h, String.data_append, Event.stage]
  split at h
  · simp at h
    rcases h with h | h | h | h | h | h | h <;> simp [h, String.data_append, Event.stage]
  split at h
  · simp at h
    rcases h with h | h | h | h | h | h | h | h | h <;> simp [h, String.data_append, Event.stage]
  · have hc : ∀ l, ev ∈ (copyLoop w (w.MkdirTemp w.TempDir "firecracker*").2 l).1 → 2 < ev.stage := by
      intro l hl
      obtain ⟨s, d, rfl, -⟩ := mem_copyLoop _ _ _ _ hl
      simp [Event.stage]
    split at h
    · simp at h
      rcases h with h | h | h | h | h | h | h | h | h | h | h
      all_goals first
        | exact Or.inr (Or.inr (Or.inl (hc _ h)))
        | simp [h, String.data_append, Event.stage]
    · simp at h
      rcases h with h | h | h | h | h | h | h | h | h | h | h
      all_goals first
        | exact Or.inr (Or.inr (Or.inl (hc _ h)))
        | simp [h, String.data_append, Event.stage]

theorem install_starts (w : World) (installPath version arch : String) (progress : Bool) :
    [Event.printf ("Installing version: " ++ version ++ " for: " ++ arch ++ "\n"),
     Event.printf ("Downloading from: " ++ dlURL version arch ++ "\n"),
     Event.downloadFileP (dlURL version arch) progress] <+:
      (install w installPath version arch progress).1 := by
  unfold install
  simp only []
  repeat' split
  all_goals first
    | exact List.prefix_refl _
    | (simp only [List.append_assoc]; exact List.prefix_append _ _)

theorem RunE_trace_unsupported (w : World) (installPath version : String) (progress : Bool)
    (h : ¬ supported w) :
    (RunE w installPath version progress).1 = mkdirStep w installPath ++ [Event.getClientArch] := by
  rw [supported_iff_guard] at h
  cases hg : platformGuard w.caseTable w.GetClientArch.1 w.GetClientArch.2 with
  | none => exact absurd hg h
  | some e => rw [RunE_guard_some w installPath version progress e hg]

theorem RunE_trace_supported (w : World) (installPath version : String) (progress : Bool)
    (h : supported w) :
    (RunE w installPath version progress).1 =
      mkdirStep w installPath ++ [Event.getClientArch] ++ (resolveVersion w version).1 ++
        (if lookupErr w version = none then
          (install w installPath (versionOf w version) w.GetClientArch.1 progress).1
         else []) := by
  rw [RunE_guard_none w installPath version progress h]
  cases hl : lookupErr w version <;> simp

theorem RunE_result_supported (w : World) (installPath version : String) (progress : Bool)
    (h : supported w) :
    (RunE w installPath version progress).2 =
      (match lookupErr w version with
       | some e => some e
       | none => (install w installPath (versionOf w version) w.GetClientArch.1 progress).2) := by
  rw [RunE_guard_none w installPath version progress h]
  cases hl : lookupErr w version <;> simp

/-- C4: on a supported platform the version used by the run is the lookup's answer, untouched,
when "latest" was requested and the lookup succeeded; otherwise it is the requested string,
with "v" put in front unless it already starts with "v".  A resolved non-"latest" version
starts with "v" and resolves to itself.  The resolved version is the one announced and
downloaded. -/
theorem resolved_version_spec (w : World) (installPath V : String) (progress : Bool)
    (hs : supported w) :
    (V = "latest" → (w.FindGitHubRelease firecrackerOwner firecrackerRepo).2 = none →
      lookupErr w V = none ∧
      versionOf w V = (w.FindGitHubRelease firecrackerOwner firecrackerRepo).1)
    ∧ (V ≠ "latest" → HasPrefix V "v" = true → versionOf w V = V)
    ∧ (V ≠ "latest" → HasPrefix V "v" = false → versionOf w V = "v" ++ V)
    ∧ (V ≠ "latest" →
        lookupErr w V = none ∧ HasPrefix (versionOf w V) "v" = true ∧
        versionOf w (versionOf w V) = versionOf w V)
    ∧ (lookupErr w V = none →
        Event.printf ("Installing version: " ++ versionOf w V ++ " for: " ++
            w.GetClientArch.1 ++ "\n") ∈ (RunE w installPath V progress).1 ∧
        Event.downloadFileP (dlURL (versionOf w V) w.GetClientArch.1) progress ∈
          (RunE w installPath V progress).1) := by
  refine ⟨?_, ?_, ?_, ?_, ?_⟩
  · intro hV hok
    subst hV
    have := resolveVersion_latest w
    simp only [githubLatest] at this
    simp [lookupErr, versionOf, this, hok]
  · intro hV hp
    simp [versionOf, resolveVersion_other w V hV, hp]
  · intro hV hp
    simp [versionOf, resolveVersion_other w V hV, hp]
  · intro hV
    have hres : HasPrefix (versionOf w V) "v" = true := by
      cases hp : HasPrefix V "v"
      · simp [versionOf, resolveVersion_other w V hV, hp, hasPrefix_v_append]
      · simp [versionOf, resolveVersion_other w V hV, hp]
    refine ⟨by simp [lookupErr, resolveVersion_other w V hV], hres, ?_⟩
    have hne := ne_latest_of_hasPrefix_v _ hres
    generalize versionOf w V = r at hres hne
    simp [versionOf, resolveVersion_other w r hne, hres]
  · intro hl
    rw [RunE_trace_supported w installPath V progress hs]
    obtain ⟨rest, hrest⟩ := install_starts w installPath (versionOf w V) w.GetClientArch.1 progress
    simp [hl, ← hrest]

/-- C4 on the all-succeeding host for the requests "latest", "v2.0.0" and "1.0.0". -/
theorem resolved_version_spec_witness :
    versionOf okWorld "latest" = "v1.4.1"
    ∧ versionOf okWorld "v2.0.0" = "v2.0.0"
    ∧ versionOf okWorld "1.0.0" = "v" ++ "1.0.0"
    ∧ versionOf okWorld (versionOf okWorld "1.0.0") = versionOf okWorld "1.0.0"
    ∧ Event.downloadFileP (dlURL (versionOf okWorld "1.0.0") "x86_64") true ∈
        (RunE okWorld "/usr/local/bin" "1.0.0" true).1 :=
  ⟨((resolved_version_spec okWorld "/usr/local/bin" "latest" true (by decide)).1 rfl rfl).2,
   (resolved_version_spec okWorld "/usr/local/bin" "v2.0.0" true (by decide)).2.1
     (by decide) (by decide),
   (resolved_version_spec okWorld "/usr/local/bin" "1.0.0" true (by decide)).2.2.1
     (by decide) (by decide),
   ((resolved_version_spec okWorld "/usr/local/bin" "1.0.0" true (by decide)).2.2.2.1
     (by decide)).2.2,
   ((resolved_version_spec okWorld "/usr/local/bin" "1.0.0" true (by decide)).2.2.2.2
     (by decide)).2⟩

theorem download_mem_RunE (w : World) (installPath V : String) (progress : Bool) (u : String)
    (q : Bool) (h : Event.downloadFileP u q ∈ (RunE w installPath V progress).1) :
    u = dlURL (versionOf w V) w.GetClientArch.1 ∧ q = progress := by
  by_cases hs : supported w
  · rw [RunE_trace_supported w installPath V progress hs] at h
    simp only [List.mem_append] at h
    rcases h with ((h | h) | h) | h
    · rcases mem_mkdirStep w installPath _ h with ⟨line, hl⟩ | hl <;> cases hl
    · simp at h
    · by_cases hV : V = githubLatest
      · subst hV; rw [resolveVersion_latest] at h; simp at h
      · rw [resolveVersion_other w V hV] at h; simp at h
    · split at h
      · rcases mem_install _ _ _ _ _ _ h with ⟨line, hl, -⟩ | hl | hl | ⟨x, hl⟩
        · cases hl
        · cases hl; exact ⟨rfl, rfl⟩
        · simp [Event.stage] at hl
        · cases hl
      · simp at h
  · have := RunE_trace_unsupported w installPath V progress hs
    rw [this] at h
    simp only [List.mem_append] at h
    rcases h with h | h
    · rcases mem_mkdirStep w installPath _ h with ⟨line, hl⟩ | hl <;> cases hl
    · simp at h

theorem countP_copyLoop (w : World) (err : Option GoError) (l : List (String × String)) :
    (copyLoop w err l).1.countP (fun ev => decide (ev.stage = 2)) = 0 := by
  rw [List.countP_eq_zero]
  intro ev hev
  obtain ⟨s, d, rfl, -⟩ := mem_copyLoop _ _ _ _ hev
  simp [Event.stage]

theorem countP_download_install (w : World) (installPath version arch : String)
    (progress : Bool) :
    (install w installPath version arch progress).1.countP (fun ev => decide (ev.stage = 2)) = 1 := by
  unfold install
  simp only []
  repeat' split
  all_goals simp only [List.countP_append, countP_copyLoop]
  all_goals simp [List.countP_cons, Event.stage]

theorem countP_download_head (w : World) (installPath V : String) :
    (mkdirStep w installPath ++ [Event.getClientArch] ++ (resolveVersion w V).1).countP
      (fun ev => decide (ev.stage = 2)) = 0 := by
  rw [List.countP_eq_zero]
  intro ev hev
  rw [resolveVersion_trace] at hev
  simp only [List.mem_append] at hev
  rcases hev with (hev | hev) | hev
  · rcases mem_mkdirStep w installPath ev hev with ⟨line, rfl⟩ | rfl <;> simp [Event.stage]
  · simp at hev; subst hev; simp [Event.stage]
  · split at hev
    · simp at hev; subst hev; simp [Event.stage]
    · simp at hev

/-- C5: the archive name is "firecracker-" ++ v ++ "-" ++ a ++ ".tgz", the download URL is the
GitHub release URL of the fixed owner and repository for v followed by "/" and that name.  On a
supported platform with the version resolved, the command announces that URL and calls the
downloader with it and the progress flag, and that is the only call of the download stage; on
any platform, every download the command requests is for that URL. -/
theorem artifact_location (w : World) (installPath V : String) (progress : Bool) (v a : String) :
    filename v a = "firecracker-" ++ v ++ "-" ++ a ++ ".tgz"
    ∧ dlURL v a =
        "https://github.com/firecracker-microvm/firecracker/releases/download/" ++ v ++ "/" ++
          filename v a
    ∧ filename "v1.0.0" "x86_64" = "firecracker-v1.0.0-x86_64.tgz"
    ∧ dlURL "v1.0.0" "x86_64" =
        "https://github.com/firecracker-microvm/firecracker/releases/download/v1.0.0/firecracker-v1.0.0-x86_64.tgz"
    ∧ (∀ u q, Event.downloadFileP u q ∈ (RunE w installPath V progress).1 →
        u = dlURL (versionOf w V) w.GetClientArch.1 ∧ q = progress)
    ∧ (supported w → lookupErr w V = none →
        Event.printf ("Downloading from: " ++
            "https://github.com/firecracker-microvm/firecracker/releases/download/" ++
            versionOf w V ++ "/" ++ "firecracker-" ++ versionOf w V ++ "-" ++
            w.GetClientArch.1 ++ ".tgz" ++ "\n") ∈ (RunE w installPath V progress).1
        ∧ Event.downloadFileP
            ("https://github.com/firecracker-microvm/firecracker/releases/download/" ++
              versionOf w V ++ "/" ++ "firecracker-" ++ versionOf w V ++ "-" ++
              w.GetClientArch.1 ++ ".tgz") progress ∈ (RunE w installPath V progress).1
        ∧ (RunE w installPath V progress).1.countP (fun ev => decide (ev.stage = 2)) = 1) := by
  have hurl : ∀ v a : String, dlURL v a =
      "https://github.com/firecracker-microvm/firecracker/releases/download/" ++ v ++ "/" ++
        "firecracker-" ++ v ++ "-" ++ a ++ ".tgz" := by
    intro v a
    apply String.ext
    simp [dlURL, githubDownloadTemplate, filename, firecrackerOwner, firecrackerRepo,
      String.data_append]
  refine ⟨rfl, ?_, by decide, by decide,
    fun u q h => download_mem_RunE w installPath V progress u q h, ?_⟩
  · apply String.ext
    simp [dlURL, githubDownloadTemplate, firecrackerOwner, firecrackerRepo, String.data_append]
  · intro hs hl
    have htr := RunE_trace_supported w installPath V progress hs
    simp only [hl, if_true] at htr
    obtain ⟨rest, hrest⟩ :=
      install_starts w installPath (versionOf w V) w.GetClientArch.1 progress
    refine ⟨?_, ?_, ?_⟩
    · have key : "Downloading from: " ++
            "https://github.com/firecracker-microvm/firecracker/releases/download/" ++
            versionOf w V ++ "/" ++ "firecracker-" ++ versionOf w V ++ "-" ++
            w.GetClientArch.1 ++ ".tgz" ++ "\n" =
          "Downloading from: " ++ dlURL (versionOf w V) w.GetClientArch.1 ++ "\n" := by
        rw [hurl]; simp only [String.append_assoc]
      rw [key, htr, ← hrest]
      simp
    · rw [← hurl, htr, ← hrest]
      simp
    · rw [htr, List.countP_append, countP_download_head, countP_download_install]

/-- C5 on the all-succeeding host: with "v1.0.0" requested the downloader is called with the
v1.0.0 archive URL, once; with "latest" requested any download is for the v1.4.1 archive. -/
theorem artifact_location_witness :
    (Event.downloadFileP
        "https://github.com/firecracker-microvm/firecracker/releases/download/v1.0.0/firecracker-v1.0.0-x86_64.tgz"
        true ∈ (RunE okWorld "/usr/local/bin" "v1.0.0" true).1
      ∧ (RunE okWorld "/usr/local/bin" "v1.0.0" true).1.countP
          (fun ev => decide (ev.stage = 2)) = 1)
    ∧ "https://github.com/firecracker-microvm/firecracker/releases/download/v1.4.1/firecracker-v1.4.1-x86_64.tgz"
        = dlURL (versionOf okWorld "latest") okWorld.GetClientArch.1 :=
  ⟨((artifact_location okWorld "/usr/local/bin" "v1.0.0" true "v1.0.0" "x86_64").2.2.2.2.2
      (by decide) (by decide)).2,
   ((artifact_location okWorld "/usr/local/bin" "latest" true "v1.0.0" "x86_64").2.2.2.2.1
    "https://github.com/firecracker-microvm/firecracker/releases/download/v1.4.1/firecracker-v1.4.1-x86_64.tgz"
    true (by decide)).1⟩

/-! ## The release lookup (lines 66-72) -/

theorem stage_mkdirStep (w : World) (installPath : String) (ev : Event)
    (h : ev ∈ mkdirStep w installPath) : ev.stage = 0 := by
  rcases mem_mkdirStep w installPath ev h with ⟨line, rfl⟩ | rfl <;> rfl

theorem stage_install (w : World) (installPath version arch : String) (progress : Bool) (ev : Event)
    (h : ev ∈ (install w installPath version arch progress).1) : ev.stage ≠ 1 := by
  rcases mem_install _ _ _ _ _ _ h with ⟨line, rfl, -⟩ | rfl | hl | ⟨x, rfl⟩
  · simp [Event.stage]
  · simp [Event.stage]
  · omega
  · simp [Event.stage]

/-- C6: on a supported platform the run contains a release lookup exactly when the requested
version is the literal "latest"; a lookup, when made, is for the fixed owner and repository and
is made once; for any other version string no call of the lookup stage occurs. -/
theorem lookup_iff_latest (w : World) (installPath V : String) (progress : Bool)
    (hs : supported w) :
    ((∃ o r, Event.findGitHubRelease o r ∈ (RunE w installPath V progress).1) ↔ V = "latest")
    ∧ (∀ o r, Event.findGitHubRelease o r ∈ (RunE w installPath V progress).1 →
        o = "firecracker-microvm" ∧ r = "firecracker")
    ∧ (RunE w installPath V progress).1.countP (fun ev => decide (ev.stage = 1)) =
        (if V = "latest" then 1 else 0) := by
  have htr := RunE_trace_supported w installPath V progress hs
  have hmem : ∀ o r, Event.findGitHubRelease o r ∈ (RunE w installPath V progress).1 →
      V = "latest" ∧ o = "firecracker-microvm" ∧ r = "firecracker" := by
    intro o r h
    rw [htr, resolveVersion_trace] at h
    simp only [List.mem_append] at h
    rcases h with ((h | h) | h) | h
    · exact absurd (stage_mkdirStep _ _ _ h) (by simp [Event.stage])
    · simp at h
    · by_cases hV : V = githubLatest
      · simp [hV, firecrackerOwner, firecrackerRepo] at h
        exact ⟨hV, h⟩
      · simp [hV] at h
    · split at h
      · exact absurd rfl (stage_install _ _ _ _ _ _ h)
      · simp at h
  refine ⟨⟨fun ⟨o, r, h⟩ => (hmem o r h).1, ?_⟩, fun o r h => (hmem o r h).2, ?_⟩
  · intro hV
    refine ⟨firecrackerOwner, firecrackerRepo, ?_⟩
    rw [htr, resolveVersion_trace]
    simp [hV, githubLatest]
  · have h0 : (mkdirStep w installPath).countP (fun ev => decide (ev.stage = 1)) = 0 := by
      rw [List.countP_eq_zero]
      intro ev hev
      simp [stage_mkdirStep _ _ _ hev]
    have h1 : (if lookupErr w V = none then
          (install w installPath (versionOf w V) w.GetClientArch.1 progress).1
         else []).countP (fun ev => decide (ev.stage = 1)) = 0 := by
      rw [List.countP_eq_zero]
      intro ev hev
      split at hev
      · simpa using stage_install _ _ _ _ _ _ hev
      · simp at hev
    rw [htr, resolveVersion_trace, List.countP_append, List.countP_append, List.countP_append,
      h0, h1]
    by_cases hV : V = "latest"
    · simp [hV, githubLatest, Event.stage]
    · simp [hV, githubLatest, Event.stage]

/-- C6 on the all-succeeding host: no lookup for "v2.0.0", "Latest" or "vlatest", one for "latest". -/
theorem lookup_iff_latest_witness :
    (¬ ∃ o r, Event.findGitHubRelease o r ∈ (RunE okWorld "/usr/local/bin" "v2.0.0" true).1)
    ∧ (¬ ∃ o r, Event.findGitHubRelease o r ∈ (RunE okWorld "/usr/local/bin" "Latest" true).1)
    ∧ (¬ ∃ o r, Event.findGitHubRelease o r ∈ (RunE okWorld "/usr/local/bin" "vlatest" true).1)
    ∧ (∃ o r, Event.findGitHubRelease o r ∈ (RunE okWorld "/usr/local/bin" "latest" true).1) :=
  ⟨fun h => absurd ((lookup_iff_latest okWorld "/usr/local/bin" "v2.0.0" true (by decide)).1.1 h)
      (by decide),
   fun h => absurd ((lookup_iff_latest okWorld "/usr/local/bin" "Latest" true (by decide)).1.1 h)
      (by decide),
   fun h => absurd ((lookup_iff_latest okWorld "/usr/local/bin" "vlatest" true (by decide)).1.1 h)
      (by decide),
   (lookup_iff_latest okWorld "/usr/local/bin" "latest" true (by decide)).1.2 rfl⟩

/-! ## Failure of a pipeline step (lines 66-102) -/

theorem install_download_fails (w : World) (installPath version arch : String) (progress : Bool)
    (e : GoError) (h : (w.DownloadFileP (dlURL version arch) progress).2 = some e) :
    install w installPath version arch progress =
      ([Event.printf ("Installing version: " ++ version ++ " for: " ++ arch ++ "\n"),
        Event.printf ("Downloading from: " ++ dlURL version arch ++ "\n"),
        Event.downloadFileP (dlURL version arch) progress], some e) := by
  simp [install, h]

theorem install_open_fails (w : World) (installPath version arch : String) (progress : Bool)
    (e : GoError) (h1 : (w.DownloadFileP (dlURL version arch) progress).2 = none)
    (h : w.OpenFile (w.DownloadFileP (dlURL version arch) progress).1 = some e) :
    install w installPath version arch progress =
      ([Event.printf ("Installing version: " ++ version ++ " for: " ++ arch ++ "\n"),
        Event.printf ("Downloading from: " ++ dlURL version arch ++ "\n"),
        Event.downloadFileP (dlURL version arch) progress,
        Event.printf ("Downloaded to: " ++ (w.DownloadFileP (dlURL version arch) progress).1 ++ "\n"),
        Event.openFile (w.DownloadFileP (dlURL version arch) progress).1], some e) := by
  simp [install, h1, h]

theorem install_mkdirTemp_fails (w : World) (installPath version arch : String) (progress : Bool)
    (e : GoError) (h1 : (w.DownloadFileP (dlURL version arch) progress).2 = none)
    (h2 : w.OpenFile (w.DownloadFileP (dlURL version arch) progress).1 = none)
    (h : (w.MkdirTemp w.TempDir "firecracker*").2 = some e) :
    install w installPath version arch progress =
      ([Event.printf ("Installing version: " ++ version ++ " for: " ++ arch ++ "\n"),
        Event.printf ("Downloading from: " ++ dlURL version arch ++ "\n"),
        Event.downloadFileP (dlURL version arch) progress,
        Event.printf ("Downloaded to: " ++ (w.DownloadFileP (dlURL version arch) progress).1 ++ "\n"),
        Event.openFile (w.DownloadFileP (dlURL version arch) progress).1,
        Event.mkdirTemp w.TempDir "firecracker*",
        Event.closeFile (w.DownloadFileP (dlURL version arch) progress).1], some e) := by
  simp [install, h1, h2, h]

theorem install_untar_fails (w : World) (installPath version arch : String) (progress : Bool)
    (e : GoError) (h1 : (w.DownloadFileP (dlURL version arch) progress).2 = none)
    (h2 : w.OpenFile (w.DownloadFileP (dlURL version arch) progress).1 = none)
    (h3 : (w.MkdirTemp w.TempDir "firecracker*").2 = none)
    (h : w.Untar (w.DownloadFileP (dlURL version arch) progress).1
          (w.MkdirTemp w.TempDir "firecracker*").1 true = some e) :
    install w installPath version arch progress =
      ([Event.printf ("Installing version: " ++ version ++ " for: " ++ arch ++ "\n"),
        Event.printf ("Downloading from: " ++ dlURL version arch ++ "\n"),
        Event.downloadFileP (dlURL version arch) progress,
        Event.printf ("Downloaded to: " ++ (w.DownloadFileP (dlURL version arch) progress).1 ++ "\n"),
        Event.openFile (w.DownloadFileP (dlURL version arch) progress).1,
        Event.mkdirTemp w.TempDir "firecracker*",
        Event.printf ("Unpacking Firecracker to: " ++ (w.MkdirTemp w.TempDir "firecracker*").1 ++ "\n"),
        Event.untar (w.DownloadFileP (dlURL version arch) progress).1
          (w.MkdirTemp w.TempDir "firecracker*").1 true,
        Event.closeFile (w.DownloadFileP (dlURL version arch) progress).1], some e) := by
  simp [install, h1, h2, h3, h]

theorem lookupErr_eq (w : World) (V : String) :
    lookupErr w V =
      if V = githubLatest then (w.FindGitHubRelease firecrackerOwner firecrackerRepo).2 else none := by
  by_cases hV : V = githubLatest
  · subst hV; simp [lookupErr, resolveVersion_latest]
  · simp [lookupErr, resolveVersion_other w V hV, hV]

theorem stage_head (w : World) (installPath V : String) (ev : Event)
    (h : ev ∈ mkdirStep w installPath ++ [Event.getClientArch] ++ (resolveVersion w V).1) :
    ev.stage ≤ 1 := by
  rw [resolveVersion_trace] at h
  simp only [List.mem_append] at h
  rcases h with (h | h) | h
  · rw [stage_mkdirStep _ _ _ h]; omega
  · simp at h; subst h; simp [Event.stage]
  · split at h
    · simp at h; subst h; simp [Event.stage]
    · simp at h

theorem countP_head (w : World) (installPath V : String) (k : Nat) (hk : 2 ≤ k) :
    (mkdirStep w installPath ++ [Event.getClientArch] ++ (resolveVersion w V).1).countP
      (fun ev => decide (ev.stage = k)) = 0 := by
  rw [List.countP_eq_zero]
  intro ev hev
  have := stage_head w installPath V ev hev
  simp
  omega

/-- C7: on a supported platform, when the release lookup, the download, the open of the
downloaded file, the temp-directory creation or the extraction is the first step to fail, with
error e, the command returns exactly e, the failing call is the only call of its stage (it is
not repeated), and no call of a later stage is made. -/
theorem first_failure_propagates (w : World) (installPath V : String) (progress : Bool)
    (e : GoError) (hs : supported w) :
    (V = "latest" → (w.FindGitHubRelease firecrackerOwner firecrackerRepo).2 = some e →
      (RunE w installPath V progress).2 = some e
      ∧ (∀ ev ∈ (RunE w installPath V progress).1, ev.stage ≤ 1)
      ∧ (RunE w installPath V progress).1.countP (fun ev => decide (ev.stage = 1)) = 1)
    ∧ (lookupErr w V = none → (downloadOf w V progress).2 = some e →
      (RunE w installPath V progress).2 = some e
      ∧ (∀ ev ∈ (RunE w installPath V progress).1, ev.stage ≤ 2)
      ∧ (RunE w installPath V progress).1.countP (fun ev => decide (ev.stage = 2)) = 1)
    ∧ (lookupErr w V = none → (downloadOf w V progress).2 = none →
        openErr w V progress = some e →
      (RunE w installPath V progress).2 = some e
      ∧ (∀ ev ∈ (RunE w installPath V progress).1, ev.stage ≤ 3)
      ∧ (RunE w installPath V progress).1.countP (fun ev => decide (ev.stage = 3)) = 1)
    ∧ (lookupErr w V = none → (downloadOf w V progress).2 = none →
        openErr w V progress = none → (mkdirTempOf w).2 = some e →
      (RunE w installPath V progress).2 = some e
      ∧ (∀ ev ∈ (RunE w installPath V progress).1, ev.stage ≤ 4)
      ∧ (RunE w installPath V progress).1.countP (fun ev => decide (ev.stage = 4)) = 1)
    ∧ (lookupErr w V = none → (downloadOf w V progress).2 = none →
        openErr w V progress = none → (mkdirTempOf w).2 = none →
        untarErr w V progress = some e →
      (RunE w installPath V progress).2 = some e
      ∧ (∀ ev ∈ (RunE w installPath V progress).1, ev.stage ≤ 5)
      ∧ (RunE w installPath V progress).1.countP (fun ev => decide (ev.stage = 5)) = 1) := by
  have hG := RunE_guard_none w installPath V progress hs
  refine ⟨?_, ?_, ?_, ?_, ?_⟩
  · intro hV he
    have hl : lookupErr w V = some e := by
      rw [lookupErr_eq]; simp [hV, githubLatest, he]
    rw [hG, hl]
    refine ⟨rfl, fun ev hev => stage_head w installPath V ev hev, ?_⟩
    have h0 : (mkdirStep w installPath).countP (fun ev => decide (ev.stage = 1)) = 0 := by
      rw [List.countP_eq_zero]
      intro ev hev
      simp [stage_mkdirStep _ _ _ hev]
    simp only [resolveVersion_trace, List.countP_append, h0]
    simp [hV, githubLatest, Event.stage]
  · intro hl hd
    rw [hG, hl]
    simp only [downloadOf] at hd
    rw [install_download_fails w installPath _ _ progress e hd]
    refine ⟨rfl, ?_, ?_⟩
    · intro ev hev
      rw [List.mem_append] at hev
      rcases hev with hev | hev
      · have := stage_head w installPath V ev hev; omega
      · simp at hev; rcases hev with rfl | rfl | rfl <;> simp [Event.stage]
    · simp only []
      rw [List.countP_append, countP_head w installPath V 2 (by omega)]
      simp [Event.stage]
  · intro hl hd ho
    rw [hG, hl]
    simp only [openErr, downloadOf] at hd ho
    rw [install_open_fails w installPath _ _ progress e hd ho]
    refine ⟨rfl, ?_, ?_⟩
    · intro ev hev
      rw [List.mem_append] at hev
      rcases hev with hev | hev
      · have := stage_head w installPath V ev hev; omega
      · simp at hev; rcases hev with rfl | rfl | rfl | rfl | rfl <;> simp [Event.stage]
    · simp only []
      rw [List.countP_append, countP_head w installPath V 3 (by omega)]
      simp [Event.stage]
  · intro hl hd ho hm
    rw [hG, hl]
    simp only [openErr, downloadOf, mkdirTempOf] at hd ho hm
    rw [install_mkdirTemp_fails w installPath _ _ progress e hd ho hm]
    refine ⟨rfl, ?_, ?_⟩
    · intro ev hev
      rw [List.mem_append] at hev
      rcases hev with hev | hev
      · have := stage_head w installPath V ev hev; omega
      · simp at hev
        rcases hev with rfl | rfl | rfl | rfl | rfl | rfl | rfl <;> simp [Event.stage]
    · simp only []
      rw [List.countP_append, countP_head w installPath V 4 (by omega)]
      simp [Event.stage]
  · intro hl hd ho hm hu
    rw [hG, hl]
    simp only [openErr, downloadOf, mkdirTempOf, untarErr] at hd ho hm hu
    rw [install_untar_fails w installPath _ _ progress e hd ho hm hu]
    refine ⟨rfl, ?_, ?_⟩
    · intro ev hev
      rw [List.mem_append] at hev
      rcases hev with hev | hev
      · have := stage_head w installPath V ev hev; omega
      · simp at hev
        rcases hev with rfl | rfl | rfl | rfl | rfl | rfl | rfl | rfl | rfl <;> simp [Event.stage]
    · simp only []
      rw [List.countP_append, countP_head w installPath V 5 (by omega)]
      simp [Event.stage]

/-- C7 on five hosts, each failing at one step: the command returns that step's error. -/
theorem first_failure_propagates_witness :
    (RunE lookupFails "/usr/local/bin" "latest" true).2 = some ⟨"rate limit exceeded", false⟩
    ∧ (RunE downloadFails "/usr/local/bin" "v1.0.0" true).2 = some ⟨"404 Not Found", false⟩
    ∧ (RunE openFails "/usr/local/bin" "v1.0.0" true).2 = some ⟨"permission denied", false⟩
    ∧ (RunE mkdirTempFails "/usr/local/bin" "v1.0.0" true).2 =
        some ⟨"read-only file system", false⟩
    ∧ (RunE untarFails "/usr/local/bin" "v1.0.0" true).2 = some ⟨"unexpected EOF", false⟩ :=
  ⟨((first_failure_propagates lookupFails "/usr/local/bin" "latest" true
      ⟨"rate limit exceeded", false⟩ (by decide)).1 rfl rfl).1,
   ((first_failure_propagates downloadFails "/usr/local/bin" "v1.0.0" true
      ⟨"404 Not Found", false⟩ (by decide)).2.1 (by decide) rfl).1,
   ((first_failure_propagates openFails "/usr/local/bin" "v1.0.0" true
      ⟨"permission denied", false⟩ (by decide)).2.2.1 (by decide) rfl rfl).1,
   ((first_failure_propagates mkdirTempFails "/usr/local/bin" "v1.0.0" true
      ⟨"read-only file system", false⟩ (by decide)).2.2.2.1 (by decide) rfl rfl rfl).1,
   ((first_failure_propagates untarFails "/usr/local/bin" "v1.0.0" true
      ⟨"unexpected EOF", false⟩ (by decide)).2.2.2.2 (by decide) rfl rfl rfl rfl).1⟩

/-! ## The copy step (lines 104-115) -/

theorem copy_sources_ne (d v a : String) :
    d ++ "/firecracker-" ++ v ++ "-" ++ a ≠ d ++ "/jailer-" ++ v ++ "-" ++ a := by
  intro h
  have h2 := congrArg String.data h
  simp [String.data_append] at h2

theorem filesToCopy_eq (d v a p : String) :
    filesToCopy d v a p =
      [(d ++ "/firecracker-" ++ v ++ "-" ++ a, p ++ "/firecracker"),
       (d ++ "/jailer-" ++ v ++ "-" ++ a, p ++ "/jailer")] := by
  simp [filesToCopy, mapStore, copy_sources_ne d v a]

theorem copyLoop_all_ok (w : World) (err : Option GoError) (l : List (String × String))
    (h : ∀ x ∈ l, w.CopyFile x.1 x.2 = none) :
    copyLoop w err l = (l.map (fun x => Event.copyFile x.1 x.2), none) := by
  induction l with
  | nil => rfl
  | cons x rest ih =>
    obtain ⟨src, dst⟩ := x
    have hx : w.CopyFile src dst = none := h (src, dst) (by simp)
    have hr := ih (fun y hy => h y (by simp [hy]))
    simp [copyLoop, hx, hr]

theorem copyLoop_ret (w : World) (err : Option GoError) (l : List (String × String)) :
    (copyLoop w err l).2 = none ∨ (copyLoop w err l).2 = some err := by
  induction l with
  | nil => exact Or.inl rfl
  | cons x rest ih =>
    obtain ⟨src, dst⟩ := x
    cases hc : w.CopyFile src dst with
    | some e => right; simp [copyLoop, hc]
    | none => simpa [copyLoop, hc] using ih

theorem copyLoop_fails_iff (w : World) (err : Option GoError) (l : List (String × String)) :
    (copyLoop w err l).2 = some err ↔ ∃ x ∈ l, w.CopyFile x.1 x.2 ≠ none := by
  induction l with
  | nil => simp [copyLoop]
  | cons x rest ih =>
    obtain ⟨src, dst⟩ := x
    cases hc : w.CopyFile src dst with
    | some e => simp [copyLoop, hc]
    | none => simp [copyLoop, hc, ih]

theorem install_after_untar (w : World) (installPath version arch : String) (progress : Bool)
    (h1 : (w.DownloadFileP (dlURL version arch) progress).2 = none)
    (h2 : w.OpenFile (w.DownloadFileP (dlURL version arch) progress).1 = none)
    (h3 : (w.MkdirTemp w.TempDir "firecracker*").2 = none)
    (h4 : w.Untar (w.DownloadFileP (dlURL version arch) progress).1
          (w.MkdirTemp w.TempDir "firecracker*").1 true = none) :
    install w installPath version arch progress =
      ([Event.printf ("Installing version: " ++ version ++ " for: " ++ arch ++ "\n"),
        Event.printf ("Downloading from: " ++ dlURL version arch ++ "\n"),
        Event.downloadFileP (dlURL version arch) progress,
        Event.printf ("Downloaded to: " ++ (w.DownloadFileP (dlURL version arch) progress).1 ++ "\n"),
        Event.openFile (w.DownloadFileP (dlURL version arch) progress).1,
        Event.mkdirTemp w.TempDir "firecracker*",
        Event.printf ("Unpacking Firecracker to: " ++ (w.MkdirTemp w.TempDir "firecracker*").1 ++ "\n"),
        Event.untar (w.DownloadFileP (dlURL version arch) progress).1
          (w.MkdirTemp w.TempDir "firecracker*").1 true,
        Event.printf ("Copying Firecracker binaries to: " ++ installPath ++ "\n")] ++
        (copyLoop w none (rangeOrder w
          (filesToCopy (w.MkdirTemp w.TempDir "firecracker*").1 version arch installPath))).1 ++
        [Event.closeFile (w.DownloadFileP (dlURL version arch) progress).1], none) := by
  have hr := copyLoop_ret w none (rangeOrder w
          (filesToCopy (w.MkdirTemp w.TempDir "firecracker*").1 version arch installPath))
  rcases hr with hr | hr <;> simp [install, h1, h2, h3, h4, hr]

/-- Once extraction has succeeded the command returns nil, whatever the copies answer. -/
theorem RunE_nil_after_extraction (w : World) (installPath V : String) (progress : Bool)
    (hs : supported w) (hl : lookupErr w V = none) (hd : (downloadOf w V progress).2 = none)
    (ho : openErr w V progress = none) (hm : (mkdirTempOf w).2 = none)
    (hu : untarErr w V progress = none) :
    (RunE w installPath V progress).2 = none := by
  rw [RunE_guard_none w installPath V progress hs, hl]
  simp only [openErr, downloadOf, mkdirTempOf, untarErr] at hd ho hm hu
  rw [install_after_untar w installPath _ _ progress hd ho hm hu]

/-- C1 fails on the code: with "v1.0.0" requested on a Linux x86_64 host where every step up to
and including extraction succeeds and the copy to the jailer destination returns an error, the
copy is attempted and the command still returns nil. -/
theorem copy_failure_returns_nil :
    supported jailerCopyFails
    ∧ untarErr jailerCopyFails "v1.0.0" true = none
    ∧ jailerCopyFails.CopyFile "/tmp/firecracker123/jailer-v1.0.0-x86_64" "/usr/local/bin/jailer" =
        some ⟨"no space left on device", false⟩
    ∧ Event.copyFile "/tmp/firecracker123/jailer-v1.0.0-x86_64" "/usr/local/bin/jailer" ∈
        (RunE jailerCopyFails "/usr/local/bin" "v1.0.0" true).1
    ∧ (RunE jailerCopyFails "/usr/local/bin" "v1.0.0" true).2 = none := by
  decide

/-- C8: the map of files to copy has exactly the two entries
(d/firecracker-v-a, p/firecracker) and (d/jailer-v-a, p/jailer); the two sources differ; the
destinations do not depend on v and a; every copy the command requests is one of the two; and
when every earlier step and both copies succeed, each pair is copied exactly once and the
command returns nil. -/
theorem copy_pairs (w : World) (installPath V : String) (progress : Bool) (d v a : String) :
    filesToCopy d v a installPath =
        [(d ++ "/firecracker-" ++ v ++ "-" ++ a, installPath ++ "/firecracker"),
         (d ++ "/jailer-" ++ v ++ "-" ++ a, installPath ++ "/jailer")]
    ∧ d ++ "/firecracker-" ++ v ++ "-" ++ a ≠ d ++ "/jailer-" ++ v ++ "-" ++ a
    ∧ (filesToCopy d v a installPath).map Prod.snd =
        [installPath ++ "/firecracker", installPath ++ "/jailer"]
    ∧ (supported w → lookupErr w V = none → (downloadOf w V progress).2 = none →
        openErr w V progress = none → (mkdirTempOf w).2 = none →
        untarErr w V progress = none →
        (∀ src dst, Event.copyFile src dst ∈ (RunE w installPath V progress).1 →
          (src, dst) ∈ filesToCopy (mkdirTempOf w).1 (versionOf w V) w.GetClientArch.1 installPath)
        ∧ ((∀ x ∈ filesToCopy (mkdirTempOf w).1 (versionOf w V) w.GetClientArch.1 installPath,
              w.CopyFile x.1 x.2 = none) →
            (RunE w installPath V progress).2 = none
            ∧ ∀ x ∈ filesToCopy (mkdirTempOf w).1 (versionOf w V) w.GetClientArch.1 installPath,
                (RunE w installPath V progress).1.count (Event.copyFile x.1 x.2) = 1)) := by
  refine ⟨filesToCopy_eq d v a installPath, copy_sources_ne d v a,
    by simp [filesToCopy_eq], ?_⟩
  intro hs hl hd ho hm hu
  have hnil := RunE_nil_after_extraction w installPath V progress hs hl hd ho hm hu
  have htr := RunE_trace_supported w installPath V progress hs
  simp only [openErr, downloadOf, mkdirTempOf, untarErr] at hd ho hm hu
  rw [install_after_untar w installPath _ _ progress hd ho hm hu] at htr
  simp only [hl, if_true] at htr
  have hhead : ∀ src dst, Event.copyFile src dst ∉
      mkdirStep w installPath ++ [Event.getClientArch] ++ (resolveVersion w V).1 := by
    intro src dst hmem
    have := stage_head w installPath V _ hmem
    simp [Event.stage] at this
  constructor
  · intro src dst hmem
    rw [htr, List.mem_append] at hmem
    rcases hmem with hmem | hmem
    · exact absurd hmem (hhead src dst)
    · simp only [List.mem_append] at hmem
      rcases hmem with (hmem | hmem) | hmem
      · simp at hmem
      · obtain ⟨s, t, heq, hin⟩ := mem_copyLoop _ _ _ _ hmem
        cases heq
        unfold rangeOrder at hin
        split at hin
        · simpa [mkdirTempOf] using hin
        · simpa [mkdirTempOf] using hin
      · simp at hmem
  · intro hok
    refine ⟨hnil, ?_⟩
    have hok2 : ∀ x ∈ rangeOrder w (filesToCopy (w.MkdirTemp w.TempDir "firecracker*").1
        (versionOf w V) w.GetClientArch.1 installPath), w.CopyFile x.1 x.2 = none := by
      intro x hx
      apply hok x
      unfold rangeOrder at hx
      split at hx
      · simpa [mkdirTempOf] using hx
      · simpa [mkdirTempOf] using hx
    rw [copyLoop_all_ok w none _ hok2] at htr
    have hc0 : ∀ src dst, (mkdirStep w installPath ++ [Event.getClientArch] ++
        (resolveVersion w V).1).count (Event.copyFile src dst) = 0 := by
      intro src dst
      exact List.count_eq_zero.mpr (hhead src dst)
    intro x hx
    rw [htr, List.count_append, hc0]
    have hne := copy_sources_ne (w.MkdirTemp w.TempDir "firecracker*").1 (versionOf w V)
      w.GetClientArch.1
    simp only [mkdirTempOf, filesToCopy_eq] at hx ⊢
    simp only [List.mem_cons, List.mem_singleton, List.not_mem_nil, or_false] at hx
    unfold rangeOrder
    rcases hx with rfl | rfl <;> cases w.rangeReversed <;>
      simp [List.count_cons, hne, hne.symm]

/-- C8 on the all-succeeding host: nil is returned and each of the two pairs is copied once. -/
theorem copy_pairs_witness :
    (RunE okWorld "/usr/local/bin" "v1.0.0" true).2 = none
    ∧ (RunE okWorld "/usr/local/bin" "v1.0.0" true).1.count
        (Event.copyFile "/tmp/firecracker123/firecracker-v1.0.0-x86_64"
          "/usr/local/bin/firecracker") = 1
    ∧ (RunE okWorld "/usr/local/bin" "v1.0.0" true).1.count
        (Event.copyFile "/tmp/firecracker123/jailer-v1.0.0-x86_64" "/usr/local/bin/jailer") = 1 :=
  ⟨(((copy_pairs okWorld "/usr/local/bin" "v1.0.0" true "" "" "").2.2.2
      (by decide) (by decide) rfl rfl rfl rfl).2 (fun _ _ => rfl)).1,
   (((copy_pairs okWorld "/usr/local/bin" "v1.0.0" true "" "" "").2.2.2
      (by decide) (by decide) rfl rfl rfl rfl).2 (fun _ _ => rfl)).2
      ("/tmp/firecracker123/firecracker-v1.0.0-x86_64", "/usr/local/bin/firecracker") (by decide),
   (((copy_pairs okWorld "/usr/local/bin" "v1.0.0" true "" "" "").2.2.2
      (by decide) (by decide) rfl rfl rfl rfl).2 (fun _ _ => rfl)).2
      ("/tmp/firecracker123/jailer-v1.0.0-x86_64", "/usr/local/bin/jailer") (by decide)⟩

/-! ## The install directory (lines 50-54) -/

theorem copyLoop_setMkdir (w : World) (m : String → Option GoError) (err : Option GoError)
    (l : List (String × String)) :
    copyLoop { w with MkdirAll := m } err l = copyLoop w err l := by
  induction l with
  | nil => rfl
  | cons x rest ih =>
    obtain ⟨src, dst⟩ := x
    simp only [copyLoop, ih]

theorem install_setMkdir (w : World) (m : String → Option GoError)
    (installPath version arch : String) (progress : Bool) :
    install { w with MkdirAll := m } installPath version arch progress =
      install w installPath version arch progress := by
  simp only [install, copyLoop_setMkdir, rangeOrder]

/-- The part of a run that follows lines 50-54, which never reads the directory creation's
answer: the calls made and the returned error. -/
theorem RunE_split (w : World) (installPath V : String) (progress : Bool) :
    ∃ tail : List Event, ∃ r : Option GoError,
      (∀ m, RunE { w with MkdirAll := m } installPath V progress =
        (mkdirStep { w with MkdirAll := m } installPath ++ tail, r))
      ∧ (∀ line, Event.printf line ∈ tail → line.data.head? ≠ some 'E') := by
  by_cases hs : supported w
  · cases hl : lookupErr w V with
    | some e =>
      refine ⟨[Event.getClientArch] ++ (resolveVersion w V).1, some e, ?_, ?_⟩
      · intro m
        have hs2 : supported { w with MkdirAll := m } := hs
        rw [RunE_guard_none _ installPath V progress hs2]
        have hl2 : lookupErr { w with MkdirAll := m } V = some e := hl
        rw [hl2]
        simp only [List.append_assoc]
        rfl
      · intro line hmem
        rw [resolveVersion_trace] at hmem
        split at hmem <;> simp at hmem
    | none =>
      refine ⟨[Event.getClientArch] ++ (resolveVersion w V).1 ++
          (install w installPath (versionOf w V) w.GetClientArch.1 progress).1,
        (install w installPath (versionOf w V) w.GetClientArch.1 progress).2, ?_, ?_⟩
      · intro m
        have hs2 : supported { w with MkdirAll := m } := hs
        rw [RunE_guard_none _ installPath V progress hs2]
        have hl2 : lookupErr { w with MkdirAll := m } V = none := hl
        rw [hl2]
        have hv : versionOf { w with MkdirAll := m } V = versionOf w V := rfl
        have hr : (resolveVersion { w with MkdirAll := m } V).1 = (resolveVersion w V).1 := rfl
        simp only [hv, hr, install_setMkdir, List.append_assoc]
      · intro line hmem
        rw [resolveVersion_trace] at hmem
        simp only [List.mem_append] at hmem
        rcases hmem with (hmem | hmem) | hmem
        · simp at hmem
        · split at hmem <;> simp at hmem
        · rcases mem_install _ _ _ _ _ _ hmem with ⟨l2, heq, hh⟩ | heq | heq | ⟨x, heq⟩
          · cases heq; exact hh
          · cases heq
          · simp [Event.stage] at heq
          · cases heq
  · rw [supported_iff_guard] at hs
    cases hg : platformGuard w.caseTable w.GetClientArch.1 w.GetClientArch.2 with
    | none => exact absurd hg hs
    | some e =>
      refine ⟨[Event.getClientArch], some e, ?_, ?_⟩
      · intro m
        exact RunE_guard_some { w with MkdirAll := m } installPath V progress e hg
      · intro line hmem
        simp at hmem

/-- C9: the answer of the recursive directory creation never changes what the command returns
nor the calls that follow lines 50-54: for any two answers the returned error is the same and
the run is the directory step followed by one common sequence of calls.  The directory step is
the announcement, the creation, and the warning line exactly when the creation returned an
error that is not an already-exists error; no other output line of the run starts like the
warning. -/
theorem mkdir_failure_not_fatal (w : World) (installPath V : String) (progress : Bool) :
    (∀ m, (RunE { w with MkdirAll := m } installPath V progress).2 =
        (RunE { w with MkdirAll := fun _ => none } installPath V progress).2)
    ∧ (∃ tail : List Event, ∀ m,
        (RunE { w with MkdirAll := m } installPath V progress).1 =
          mkdirStep { w with MkdirAll := m } installPath ++ tail)
    ∧ mkdirStep w installPath =
        [Event.printf ("Installing Firecracker to " ++ installPath ++ "\n"),
         Event.mkdirAll installPath 0o755] ++
        (match w.MkdirAll installPath with
         | some e =>
           if e.isExist = false then
             [Event.printf ("Error creating directory " ++ installPath ++ ", error: " ++
               e.msg ++ "\n")]
           else []
         | none => [])
    ∧ ((∃ rest, Event.printf ("Error creating directory " ++ rest) ∈
          (RunE w installPath V progress).1) ↔
        ∃ e, w.MkdirAll installPath = some e ∧ e.isExist = false) := by
  obtain ⟨tail, r, hrun, hprint⟩ := RunE_split w installPath V progress
  have hstep : mkdirStep w installPath =
        [Event.printf ("Installing Firecracker to " ++ installPath ++ "\n"),
         Event.mkdirAll installPath 0o755] ++
        (match w.MkdirAll installPath with
         | some e =>
           if e.isExist = false then
             [Event.printf ("Error creating directory " ++ installPath ++ ", error: " ++
               e.msg ++ "\n")]
           else []
         | none => []) := by
    unfold mkdirStep
    cases hm : w.MkdirAll installPath with
    | none => simp
    | some e => cases hx : e.isExist <;> simp [hx]
  refine ⟨fun m => by rw [hrun m, hrun (fun _ => none)], ⟨tail, fun m => by rw [hrun m]⟩,
    hstep, ?_⟩
  have hw : RunE w installPath V progress = (mkdirStep w installPath ++ tail, r) := hrun w.MkdirAll
  rw [hw, hstep]
  constructor
  · rintro ⟨rest, hmem⟩
    simp only [List.mem_append] at hmem
    rcases hmem with (hmem | hmem) | hmem
    · simp at hmem
      have h2 := congrArg String.data hmem
      simp [String.data_append] at h2
    · cases hm : w.MkdirAll installPath with
      | none => simp [hm] at hmem
      | some e =>
        cases hx : e.isExist
        · exact ⟨e, rfl, hx⟩
        · simp [hm, hx] at hmem
    · exact absurd (by simp [String.data_append]) (hprint _ hmem)
  · rintro ⟨e, hm, hx⟩
    refine ⟨installPath ++ ", error: " ++ e.msg ++ "\n", ?_⟩
    simp [hm, hx, String.append_assoc]

/-- C9 on hosts where the directory creation is denied or reports an existing directory. -/
theorem mkdir_failure_not_fatal_witness :
    (RunE mkdirDenied "/usr/local/bin" "v1.0.0" true).2 =
        (RunE okWorld "/usr/local/bin" "v1.0.0" true).2
    ∧ ((∃ rest, Event.printf ("Error creating directory " ++ rest) ∈
          (RunE mkdirDenied "/usr/local/bin" "v1.0.0" true).1))
    ∧ ¬ (∃ rest, Event.printf ("Error creating directory " ++ rest) ∈
          (RunE mkdirExists "/usr/local/bin" "v1.0.0" true).1) :=
  ⟨(mkdir_failure_not_fatal okWorld "/usr/local/bin" "v1.0.0" true).1 mkdirDenied.MkdirAll,
   (mkdir_failure_not_fatal mkdirDenied "/usr/local/bin" "v1.0.0" true).2.2.2.2
     ⟨⟨"permission denied", false⟩, rfl, rfl⟩,
   fun h => absurd ((mkdir_failure_not_fatal mkdirExists "/usr/local/bin" "v1.0.0" true).2.2.2.1 h)
     (by decide)⟩

end Firecracker
